import Mathlib

/-!
Verification of the Cashflow_Management_System storage control plane
(`src/controller.js`) and chunk engine (`src/storage.js`) against their
natural-language specification.

Shallow embedding conventions:
* A JavaScript `Map` is an insertion-ordered association list
  `List (String × α)`; `Map.get/has/set/delete` become `mapGet`, `mapHas`,
  `mapSet`, `mapDelete`.  A JavaScript `Set` of strings is an
  insertion-ordered duplicate-free `List String` (`setAdd`, removal by
  `List.filter`).
* Timestamps (`new Date().toISOString()` / `Date.now()`) are modelled as
  natural-number milliseconds; byte counts are `Nat` (JS numbers holding
  nonnegative integers), so `Math.max(0, a - b)` is `Nat` subtraction.
* File bytes are `List Nat`; the md5 hex digest is a parameter
  `h : List Nat → String` of the chunk-engine functions.
* Fallible endpoints return `Except String ControllerState`; an
  `Except.error` result carries no successor state, matching the source,
  which returns early before performing any mutation, and a failed
  reassembly produces no output bytes.
* The best-effort `users.json` side write inside announce/deannounce is an
  external collaborator per the spec and is outside the modelled state.
-/

/-! ## JS Map / Set primitives -/

def mapGet {α : Type} (m : List (String × α)) (k : String) : Option α :=
  (m.find? (fun p => p.1 == k)).map (fun p => p.2)

def mapHas {α : Type} (m : List (String × α)) (k : String) : Bool :=
  m.any (fun p => p.1 == k)

def mapSet {α : Type} (m : List (String × α)) (k : String) (v : α) :
    List (String × α) :=
  if mapHas m k then m.map (fun p => if p.1 == k then (k, v) else p)
  else m ++ [(k, v)]

def mapDelete {α : Type} (m : List (String × α)) (k : String) :
    List (String × α) :=
  m.filter (fun p => !(p.1 == k))

/-- `Set.add`: appends the element unless already present. -/
def setAdd (l : List String) (x : String) : List String :=
  if l.contains x then l else l ++ [x]

/-! ## Data model (src/controller.js state) -/

structure Storage where
  total : Nat
  used : Nat
deriving DecidableEq, Repr

structure NodeRecord where
  address : String
  port : Nat
  online : Bool
  lastSeen : Nat
  owner : Option String
  storage : Storage
deriving DecidableEq, Repr

structure FileInfo where
  owners : List String
  uploadTime : Nat
  size : Nat
  replicated : Bool
deriving DecidableEq, Repr

structure ControllerState where
  registeredNodes : List (String × NodeRecord)
  fileLocations : List (String × FileInfo)
deriving DecidableEq, Repr

def initialState : ControllerState :=
  { registeredNodes := [], fileLocations := [] }

/-- JS `x || d` for numbers: `0`/absent are falsy. -/
def jsOrNat (v : Option Nat) (d : Nat) : Nat :=
  match v with
  | some x => if x == 0 then d else x
  | none => d

/-- JS `owner || null`: the empty string is falsy and becomes `null`. -/
def normalizeOwner (owner : Option String) : Option String :=
  match owner with
  | some s => if s == "" then none else some s
  | none => none

/-! ## Node registry operations (src/controller.js lines 38-74) -/

/-- `POST /api/register` (controller.js 38-60). -/
def register (st : ControllerState) (id address : String) (port : Option Nat)
    (owner : Option String) (storage : Option Storage) (now : Nat) :
    ControllerState :=
  let nd : NodeRecord :=
    { address := address
      port := jsOrNat port 5001
      online := true
      lastSeen := now
      owner := normalizeOwner owner
      storage := match storage with
        | some s0 => { total := s0.total, used := s0.used }
        | none => { total := 0, used := 0 } }
  { st with registeredNodes := mapSet st.registeredNodes id nd }

/-- `POST /api/heartbeat` (controller.js 63-74): unknown ids are ignored. -/
def heartbeat (st : ControllerState) (id : String) (now : Nat) :
    ControllerState :=
  match mapGet st.registeredNodes id with
  | none => st
  | some nd =>
      let nd' := { nd with lastSeen := now, online := true }
      { st with registeredNodes := mapSet st.registeredNodes id nd' }

/-! ## File location index operations (src/controller.js lines 77-202) -/

def blankFileInfo (size now : Nat) : FileInfo :=
  { owners := [], uploadTime := now, size := size, replicated := false }

/-- `POST /api/announce` (controller.js 77-137).  Adds `id` to the owners of
`filename` (creating the entry first when new) and, when `id` was not
already an owner and `size` is truthy, adds `size` to the node's used
storage. -/
def announce (st : ControllerState) (id filename : String) (size now : Nat) :
    Except String ControllerState :=
  if !(mapHas st.registeredNodes id) then
    Except.error ("Node not registered")
  else
    let isNewFile := !(mapHas st.fileLocations filename)
    let fl0 := if isNewFile then
        mapSet st.fileLocations filename (blankFileInfo size now)
      else st.fileLocations
    -- `fileLocations.get(filename)` is defined here; the default is dead code.
    let fileInfo := (mapGet fl0 filename).getD (blankFileInfo size now)
    let alreadyOwner := fileInfo.owners.contains id
    let fileInfo' := { fileInfo with owners := setAdd fileInfo.owners id }
    let fl1 := mapSet fl0 filename fileInfo'
    let nodes1 :=
      if !alreadyOwner && !(size == 0) && mapHas st.registeredNodes id then
        match mapGet st.registeredNodes id with
        | some nd => mapSet st.registeredNodes id
            ({ nd with storage :=
                { nd.storage with used := nd.storage.used + size } })
        | none => st.registeredNodes
      else st.registeredNodes
    Except.ok { registeredNodes := nodes1, fileLocations := fl1 }

/-- `POST /api/deannounce` (controller.js 158-202).  Removes `id` from the
owners of `filename`; `Math.max(0, used - size)` is `Nat` subtraction; an
entry whose owners set becomes empty is deleted. -/
def deannounce (st : ControllerState) (id filename : String) (size : Nat) :
    Except String ControllerState :=
  if !(mapHas st.registeredNodes id) then
    Except.error ("Node not registered")
  else if !(mapHas st.fileLocations filename) then
    Except.ok st
  else
    let fileInfo := (mapGet st.fileLocations filename).getD (blankFileInfo 0 0)
    if fileInfo.owners.contains id then
      let fileInfo' :=
        { fileInfo with owners := fileInfo.owners.filter (fun o => !(o == id)) }
      let nodes1 :=
        if !(size == 0) && mapHas st.registeredNodes id then
          match mapGet st.registeredNodes id with
          | some nd => mapSet st.registeredNodes id
              ({ nd with storage :=
                  { nd.storage with used := nd.storage.used - size } })
          | none => st.registeredNodes
        else st.registeredNodes
      let fl1 :=
        if fileInfo'.owners.length == 0 then mapDelete st.fileLocations filename
        else mapSet st.fileLocations filename fileInfo'
      Except.ok { registeredNodes := nodes1, fileLocations := fl1 }
    else
      Except.ok st

structure LocEntry where
  id : String
  address : String
  port : Nat
deriving DecidableEq, Repr

/-- `GET /api/locations/:filename` (controller.js 140-155): owners whose node
record is online, in owner-set order; a pure query. -/
def locate (st : ControllerState) (filename : String) : List LocEntry :=
  match mapGet st.fileLocations filename with
  | none => []
  | some fi =>
      fi.owners.filterMap (fun oid =>
        match mapGet st.registeredNodes oid with
        | some nd =>
            if nd.online then some { id := oid, address := nd.address, port := nd.port }
            else none
        | none => none)

/-! ## Liveness monitor sweep (src/controller.js lines 328-373) -/

def heartbeatTimeoutMs : Nat := 30000

/-- JS truthiness of the `owner` field (`!!node.owner`). -/
def jsOwnerTruthy : Option String → Bool
  | none => false
  | some s => !(s == "")

/-- The timeout condition of controller.js line 337. -/
def nodeTimedOut (now : Nat) (nd : NodeRecord) : Bool :=
  nd.online && !(jsOwnerTruthy nd.owner) &&
    decide (now - nd.lastSeen > heartbeatTimeoutMs)

def markOffline (now : Nat) (nd : NodeRecord) : NodeRecord :=
  if nodeTimedOut now nd then { nd with online := false } else nd

def hasOnlineOwner (nodes : List (String × NodeRecord)) (fi : FileInfo) : Bool :=
  fi.owners.any (fun oid =>
    match mapGet nodes oid with
    | some nd => nd.online
    | none => false)

/-- Whether the node phase of the sweep flips at least one node offline. -/
def sweepChanged (now : Nat) (st : ControllerState) : Bool :=
  st.registeredNodes.any (fun p => nodeTimedOut now p.2)

/-- One run of the `startHeartbeatChecker` interval body
(controller.js 328-373): mark stale non-personal nodes offline, and only if
some node changed state, evict file entries with no online owner. -/
def sweep (now : Nat) (st : ControllerState) : ControllerState :=
  let nodes := st.registeredNodes.map (fun p => (p.1, markOffline now p.2))
  { registeredNodes := nodes
    fileLocations :=
      if sweepChanged now st then
        st.fileLocations.filter (fun q => hasOnlineOwner nodes q.2)
      else st.fileLocations }

/-- Used storage recorded for a node id (0 when unknown). -/
def usedOf (st : ControllerState) (id : String) : Nat :=
  ((mapGet st.registeredNodes id).map (fun nd => nd.storage.used)).getD 0

/-- Whether `id` is currently a member of `filename`'s owners set. -/
def isOwner (st : ControllerState) (filename id : String) : Bool :=
  match mapGet st.fileLocations filename with
  | some fi => fi.owners.contains id
  | none => false

/-- No file-location entry has an empty owners set. -/
def noEmptyEntries (st : ControllerState) : Prop :=
  ∀ q ∈ st.fileLocations, q.2.owners ≠ []

instance (st : ControllerState) : Decidable (noEmptyEntries st) := by
  unfold noEmptyEntries; infer_instance

/-! ## Chunk engine (src/storage.js) -/

def defaultChunkSize : Nat := 1024 * 1024

structure ChunkMeta where
  index : Nat
  id : String
  size : Nat
  hash : String
deriving DecidableEq, Repr

structure Manifest where
  filename : String
  originalSize : Nat
  chunkSize : Nat
  chunkCount : Nat
  chunks : List ChunkMeta
  reassembled : Bool
deriving DecidableEq, Repr

/-- `fileBuffer.slice(i*chunkSize, min((i+1)*chunkSize, fileSize))`. -/
def chunkData (fileBuffer : List Nat) (chunkSize i : Nat) : List Nat :=
  let start := i * chunkSize
  let endPos := min (start + chunkSize) fileBuffer.length
  (fileBuffer.drop start).take (endPos - start)

/-- `StorageManager.splitFile` (storage.js 21-80), with the md5 hex digest
abstracted as `h`.  Returns the persisted chunk store (chunk id ↦ bytes,
as written under `storage/chunks/`) and the manifest.  `Math.ceil(size/C)`
is `(size + C - 1) / C` for positive `C` (the source fixes `C` = 1 MiB). -/
def splitFile (h : List Nat → String) (filename : String) (chunkSize : Nat)
    (fileBuffer : List Nat) : List (String × List Nat) × Manifest :=
  let fileSize := fileBuffer.length
  let chunkCount := (fileSize + chunkSize - 1) / chunkSize
  let chunkPairs := (List.range chunkCount).map (fun i =>
    let data := chunkData fileBuffer chunkSize i
    let chunkHash := h data
    let chunkId := filename ++ "_chunk_" ++ toString i ++ "_" ++ chunkHash
    (({ index := i, id := chunkId, size := data.length, hash := chunkHash } :
        ChunkMeta), data))
  (chunkPairs.map (fun c => (c.1.id, c.2)),
   { filename := filename
     originalSize := fileSize
     chunkSize := chunkSize
     chunkCount := chunkCount
     chunks := chunkPairs.map (fun c => c.1)
     reassembled := false })

/-- Insertion step of `chunks.sort((a, b) => a.index - b.index)`. -/
def insertByIndex (c : ChunkMeta) : List ChunkMeta → List ChunkMeta
  | [] => [c]
  | d :: ds => if c.index ≤ d.index then c :: d :: ds else d :: insertByIndex c ds

def sortByIndex : List ChunkMeta → List ChunkMeta
  | [] => []
  | c :: cs => insertByIndex c (sortByIndex cs)

/-- Chunk-reading loop of `reassembleFile`: look each chunk up in the store,
recompute its hash, and abort on the first mismatch or missing chunk. -/
def readChunks (h : List Nat → String) (store : List (String × List Nat)) :
    List ChunkMeta → Except String (List Nat)
  | [] => Except.ok []
  | cm :: rest =>
      match mapGet store cm.id with
      | none => Except.error ("Missing chunk file: " ++ cm.id)
      | some data =>
          if h data ≠ cm.hash then
            Except.error ("Chunk " ++ toString cm.index ++ " integrity check failed")
          else
            match readChunks h store rest with
            | Except.error e => Except.error e
            | Except.ok acc => Except.ok (data ++ acc)

/-- `StorageManager.reassembleFile` (storage.js 83-127).  The output buffer
is `Buffer.alloc(originalSize)` progressively overwritten by `copy`, i.e.
the concatenated chunk bytes truncated to `originalSize` and zero-padded;
an error produces no output bytes. -/
def reassembleFile (h : List Nat → String) (store : List (String × List Nat))
    (m : Manifest) : Except String (List Nat) :=
  match readChunks h store (sortByIndex m.chunks) with
  | Except.error e => Except.error e
  | Except.ok assembled =>
      Except.ok (assembled.take m.originalSize ++
        List.replicate (m.originalSize - assembled.length) 0)

/-! ## Lemmas about the map primitives -/

theorem mapGet_cons {α : Type} (p : String × α) (t : List (String × α)) (k : String) :
    mapGet (p :: t) k = if p.1 == k then some p.2 else mapGet t k := by
  by_cases h : p.1 == k
  · simp [mapGet, List.find?_cons_of_pos, h]
  · simp only [Bool.not_eq_true] at h
    simp [mapGet, List.find?_cons_of_neg, h]

theorem mapHas_cons {α : Type} (p : String × α) (t : List (String × α)) (k : String) :
    mapHas (p :: t) k = ((p.1 == k) || mapHas t k) := by
  simp [mapHas]

theorem mapGet_eq_none_of_not_has {α : Type} (m : List (String × α)) (k : String)
    (h : mapHas m k = false) : mapGet m k = none := by
  induction m with
  | nil => rfl
  | cons p t ih =>
    rw [mapHas_cons, Bool.or_eq_false_iff] at h
    rw [mapGet_cons, h.1, if_neg (by simp)]
    exact ih h.2

theorem mapHas_of_mapGet {α : Type} (m : List (String × α)) (k : String) (v : α)
    (h : mapGet m k = some v) : mapHas m k = true := by
  by_contra hc
  rw [Bool.not_eq_true] at hc
  rw [mapGet_eq_none_of_not_has m k hc] at h
  exact Option.noConfusion h

theorem keys_ne_of_not_has {α : Type} (m : List (String × α)) (k : String)
    (h : mapHas m k = false) : ∀ p ∈ m, (p.1 == k) = false := by
  intro p hp
  induction m with
  | nil => exact absurd hp (List.not_mem_nil p)
  | cons q t ih =>
    rw [mapHas_cons, Bool.or_eq_false_iff] at h
    rcases List.mem_cons.mp hp with h1 | h1
    · subst h1; exact h.1
    · exact ih h.2 h1

theorem mapGet_mapSet_self {α : Type} (m : List (String × α)) (k : String) (v : α) :
    mapGet (mapSet m k v) k = some v := by
  unfold mapSet
  by_cases h : mapHas m k
  · rw [if_pos h]
    induction m with
    | nil => simp [mapHas] at h
    | cons p t ih =>
      by_cases hp : p.1 == k
      · simp only [List.map_cons, hp, if_pos]
        rw [mapGet_cons]
        simp
      · simp only [Bool.not_eq_true] at hp
        simp only [List.map_cons, hp, Bool.false_eq_true, if_neg, ite_false]
        rw [mapGet_cons, hp, if_neg (by simp)]
        rw [mapHas_cons, hp, Bool.false_or] at h
        exact ih h
  · rw [if_neg h]
    rw [Bool.not_eq_true] at h
    induction m with
    | nil => simp [mapGet]
    | cons p t ih =>
      rw [mapHas_cons, Bool.or_eq_false_iff] at h
      rw [List.cons_append, mapGet_cons, h.1, if_neg (by simp)]
      exact ih h.2

theorem mapGet_mapSet_ne {α : Type} (m : List (String × α)) (k k' : String) (v : α)
    (h : k' ≠ k) : mapGet (mapSet m k v) k' = mapGet m k' := by
  unfold mapSet
  by_cases hh : mapHas m k
  · rw [if_pos hh]
    clear hh
    induction m with
    | nil => rfl
    | cons p t ih =>
      by_cases hp : p.1 == k
      · have hpk : p.1 = k := by simpa using hp
        simp only [List.map_cons, hp, if_pos]
        rw [mapGet_cons, mapGet_cons]
        have h1 : (k == k') = false := by simp [Ne.symm h]
        have h2 : (p.1 == k') = false := by simp [hpk, Ne.symm h]
        rw [h1, h2]
        simp only [Bool.false_eq_true, if_neg, ite_false]
        exact ih
      · simp only [Bool.not_eq_true] at hp
        simp only [List.map_cons, hp, Bool.false_eq_true, if_neg, ite_false]
        rw [mapGet_cons, mapGet_cons]
        exact ite_congr rfl (fun _ => rfl) (fun _ => ih)
  · rw [if_neg hh]
    induction m with
    | nil =>
      simp only [List.nil_append, mapGet_cons]
      have h1 : (k == k') = false := by simp [Ne.symm h]
      rw [h1]
      simp [mapGet]
    | cons p t ih =>
      rw [Bool.not_eq_true, mapHas_cons, Bool.or_eq_false_iff] at hh
      rw [List.cons_append, mapGet_cons, mapGet_cons]
      refine ite_congr rfl (fun _ => rfl) (fun _ => ?_)
      exact ih (by rw [Bool.not_eq_true]; exact hh.2)

theorem mapGet_mapDelete_self {α : Type} (m : List (String × α)) (k : String) :
    mapGet (mapDelete m k) k = none := by
  unfold mapDelete
  induction m with
  | nil => rfl
  | cons p t ih =>
    by_cases hp : p.1 == k
    · simp only [List.filter_cons, hp, Bool.not_true, Bool.false_eq_true, if_neg, ite_false]
      exact ih
    · simp only [Bool.not_eq_true] at hp
      simp only [List.filter_cons, hp, Bool.not_false, if_pos, ite_true]
      rw [mapGet_cons, hp, if_neg (by simp)]
      exact ih

theorem mapGet_mapDelete_ne {α : Type} (m : List (String × α)) (k k' : String)
    (h : k' ≠ k) : mapGet (mapDelete m k) k' = mapGet m k' := by
  unfold mapDelete
  induction m with
  | nil => rfl
  | cons p t ih =>
    by_cases hp : p.1 == k
    · have hpk : p.1 = k := by simpa using hp
      simp only [List.filter_cons, hp, Bool.not_true, Bool.false_eq_true, if_neg, ite_false]
      rw [mapGet_cons]
      have h2 : (p.1 == k') = false := by simp [hpk, Ne.symm h]
      rw [h2]
      simp only [Bool.false_eq_true, if_neg, ite_false]
      exact ih
    · simp only [Bool.not_eq_true] at hp
      simp only [List.filter_cons, hp, Bool.not_false, if_pos, ite_true]
      rw [mapGet_cons, mapGet_cons]
      exact ite_congr rfl (fun _ => rfl) (fun _ => ih)

theorem mapGet_map_value {α β : Type} (m : List (String × α)) (f : α → β) (k : String) :
    mapGet (m.map (fun p => (p.1, f p.2))) k = (mapGet m k).map f := by
  induction m with
  | nil => rfl
  | cons p t ih =>
    rw [List.map_cons, mapGet_cons, mapGet_cons]
    by_cases hp : p.1 == k
    · simp [hp]
    · simp only [Bool.not_eq_true] at hp
      simp only [hp, Bool.false_eq_true, if_neg, ite_false]
      exact ih

theorem mem_mapSet {α : Type} (m : List (String × α)) (k : String) (v : α)
    (q : String × α) (hq : q ∈ mapSet m k v) :
    (q ∈ m ∧ (q.1 == k) = false) ∨ q = (k, v) := by
  unfold mapSet at hq
  by_cases hh : mapHas m k
  · rw [if_pos hh] at hq
    rcases List.mem_map.mp hq with ⟨p, hp, he⟩
    by_cases hpk : p.1 == k
    · right; rw [← he, if_pos hpk]
    · left
      rw [Bool.not_eq_true] at hpk
      rw [← he, hpk]
      simp only [Bool.false_eq_true, if_neg, ite_false]
      exact ⟨hp, hpk⟩
  · rw [if_neg hh] at hq
    rw [Bool.not_eq_true] at hh
    rcases List.mem_append.mp hq with h1 | h1
    · exact Or.inl ⟨h1, keys_ne_of_not_has m k hh q h1⟩
    · right; simpa using h1

theorem mem_mapDelete {α : Type} (m : List (String × α)) (k : String)
    (q : String × α) (hq : q ∈ mapDelete m k) : q ∈ m :=
  (List.mem_filter.mp hq).1

theorem mapGet_filter_snd {α : Type} (m : List (String × α)) (pred : α → Bool)
    (k : String) (v : α)
    (h : mapGet (m.filter (fun q => pred q.2)) k = some v) : pred v = true := by
  induction m with
  | nil => exact Option.noConfusion h
  | cons p t ih =>
    by_cases hp : pred p.2
    · rw [List.filter_cons, if_pos (by simpa using hp), mapGet_cons] at h
      by_cases hk : p.1 == k
      · rw [hk, if_pos rfl] at h
        cases h; exact hp
      · rw [Bool.not_eq_true] at hk
        rw [hk] at h
        simp only [Bool.false_eq_true, if_neg, ite_false] at h
        exact ih h
    · rw [Bool.not_eq_true] at hp
      rw [List.filter_cons, hp] at h
      simp only [Bool.false_eq_true, if_neg, ite_false] at h
      exact ih h

theorem mapGet_assoc_self {α : Type} (m : List (String × α))
    (hnd : (m.map Prod.fst).Nodup) (p : String × α) (hp : p ∈ m) :
    mapGet m p.1 = some p.2 := by
  induction m with
  | nil => exact absurd hp (List.not_mem_nil p)
  | cons q t ih =>
    rw [List.map_cons, List.nodup_cons] at hnd
    rcases List.mem_cons.mp hp with h1 | h1
    · subst h1; rw [mapGet_cons]; simp
    · rw [mapGet_cons]
      have hne : (q.1 == p.1) = false := by
        simp only [beq_eq_false_iff_ne, ne_eq]
        intro he
        exact hnd.1 (he ▸ List.mem_map_of_mem Prod.fst h1)
      rw [hne]
      simp only [Bool.false_eq_true, if_neg, ite_false]
      exact ih hnd.2 h1

theorem mapHas_eq_isSome {α : Type} (m : List (String × α)) (k : String) :
    mapHas m k = (mapGet m k).isSome := by
  induction m with
  | nil => rfl
  | cons p t ih =>
    rw [mapHas_cons, mapGet_cons]
    by_cases hp : p.1 == k
    · simp [hp]
    · simp only [Bool.not_eq_true] at hp
      simp only [hp, Bool.false_or, Bool.false_eq_true, if_neg, ite_false]
      exact ih

theorem mapHas_true_exists {α : Type} (m : List (String × α)) (k : String)
    (h : mapHas m k = true) : ∃ v, mapGet m k = some v := by
  rw [mapHas_eq_isSome] at h
  exact Option.isSome_iff_exists.mp h

theorem setAdd_of_contains (l : List String) (x : String)
    (h : l.contains x = true) : setAdd l x = l := by
  unfold setAdd; rw [if_pos h]

theorem setAdd_of_not_contains (l : List String) (x : String)
    (h : l.contains x = false) : setAdd l x = l ++ [x] := by
  unfold setAdd; rw [h]; simp

theorem contains_setAdd_self (l : List String) (x : String) :
    (setAdd l x).contains x = true := by
  unfold setAdd
  by_cases h : l.contains x
  · rw [if_pos h]; exact h
  · simp only [Bool.not_eq_true] at h
    rw [h]; simp

/-! ## Characterization of announce / deannounce on the success paths -/

theorem announce_ok_eq (st : ControllerState) (n f : String) (s now : Nat)
    (nd : NodeRecord) (hnd : mapGet st.registeredNodes n = some nd)
    (fi : FileInfo)
    (hfi : mapGet (if !(mapHas st.fileLocations f) then
        mapSet st.fileLocations f (blankFileInfo s now) else st.fileLocations) f
      = some fi) :
    announce st n f s now = Except.ok
      { registeredNodes :=
          if !(fi.owners.contains n) && !(s == 0) then
            mapSet st.registeredNodes n
              ({ nd with storage := { nd.storage with used := nd.storage.used + s } })
          else st.registeredNodes
        fileLocations :=
          mapSet (if !(mapHas st.fileLocations f) then
              mapSet st.fileLocations f (blankFileInfo s now) else st.fileLocations)
            f ({ fi with owners := setAdd fi.owners n }) } := by
  have hreg := mapHas_of_mapGet _ _ _ hnd
  unfold announce
  simp only [hreg, hfi, hnd, Option.getD_some, Bool.not_true, Bool.false_eq_true,
    Bool.and_true, if_false, ite_false]

theorem deannounce_ok_eq (st : ControllerState) (n f : String) (s : Nat)
    (nd : NodeRecord) (hnd : mapGet st.registeredNodes n = some nd)
    (fi : FileInfo) (hfi : mapGet st.fileLocations f = some fi)
    (hown : fi.owners.contains n = true) :
    deannounce st n f s = Except.ok
      { registeredNodes :=
          if !(s == 0) then
            mapSet st.registeredNodes n
              ({ nd with storage := { nd.storage with used := nd.storage.used - s } })
          else st.registeredNodes
        fileLocations :=
          if (fi.owners.filter (fun o => !(o == n))).length == 0 then
            mapDelete st.fileLocations f
          else mapSet st.fileLocations f
            ({ fi with owners := fi.owners.filter (fun o => !(o == n)) }) } := by
  have hreg := mapHas_of_mapGet _ _ _ hnd
  have hfile := mapHas_of_mapGet _ _ _ hfi
  unfold deannounce
  simp only [hreg, hfile, hfi, hnd, hown, Option.getD_some, Bool.not_true, Bool.false_eq_true,
    Bool.and_true, if_false, ite_false, if_true, ite_true]

theorem announce_error_eq (st : ControllerState) (n f : String) (s now : Nat)
    (hreg : mapHas st.registeredNodes n = false) :
    announce st n f s now = Except.error ("Node not registered") := by
  unfold announce
  rw [hreg]
  rfl

theorem deannounce_error_eq (st : ControllerState) (n f : String) (s : Nat)
    (hreg : mapHas st.registeredNodes n = false) :
    deannounce st n f s = Except.error ("Node not registered") := by
  unfold deannounce
  rw [hreg]
  rfl

theorem deannounce_untracked_eq (st : ControllerState) (n f : String) (s : Nat)
    (hreg : mapHas st.registeredNodes n = true)
    (hfile : mapHas st.fileLocations f = false) :
    deannounce st n f s = Except.ok st := by
  unfold deannounce
  rw [hreg, hfile]
  rfl

theorem deannounce_not_owner_eq (st : ControllerState) (n f : String) (s : Nat)
    (hreg : mapHas st.registeredNodes n = true)
    (fi : FileInfo) (hfi : mapGet st.fileLocations f = some fi)
    (hown : fi.owners.contains n = false) :
    deannounce st n f s = Except.ok st := by
  have hfile := mapHas_of_mapGet _ _ _ hfi
  unfold deannounce
  simp only [hreg, hfile, hfi, hown, Option.getD_some, Bool.not_true, Bool.false_eq_true,
    Bool.and_true, if_false, ite_false, if_true, ite_true]

theorem map_id_of_no_key {α : Type} (m : List (String × α)) (k : String) (v : α)
    (h : ∀ p ∈ m, (p.1 == k) = false) :
    m.map (fun p => if p.1 == k then (k, v) else p) = m := by
  induction m with
  | nil => rfl
  | cons p t ih =>
    rw [List.map_cons, h p (List.mem_cons_self p t)]
    simp only [Bool.false_eq_true, if_neg, ite_false]
    rw [ih (fun q hq => h q (List.mem_cons_of_mem p hq))]

theorem mapHas_mapSet_self {α : Type} (m : List (String × α)) (k : String) (v : α) :
    mapHas (mapSet m k v) k = true := by
  rw [mapHas_eq_isSome, mapGet_mapSet_self]
  rfl

theorem mapSet_eq_of_has {α : Type} (m : List (String × α)) (k : String) (v : α)
    (h : mapHas m k = true) :
    mapSet m k v = m.map (fun p => if p.1 == k then (k, v) else p) := by
  unfold mapSet; rw [if_pos h]

theorem mapSet_eq_of_not_has {α : Type} (m : List (String × α)) (k : String) (v : α)
    (h : mapHas m k = false) : mapSet m k v = m ++ [(k, v)] := by
  unfold mapSet; rw [h]; simp

/-- Setting the same key twice keeps only the second value. -/
theorem mapSet_mapSet {α : Type} (m : List (String × α)) (k : String) (v w : α) :
    mapSet (mapSet m k v) k w = mapSet m k w := by
  have hh : mapHas (mapSet m k v) k = true := mapHas_mapSet_self m k v
  rw [mapSet_eq_of_has (mapSet m k v) k w hh]
  by_cases h : mapHas m k
  · rw [mapSet_eq_of_has m k v h, mapSet_eq_of_has m k w h, List.map_map]
    apply List.map_congr_left
    intro p _
    by_cases hp : p.1 == k <;> simp [Function.comp, hp]
  · rw [Bool.not_eq_true] at h
    rw [mapSet_eq_of_not_has m k v h, mapSet_eq_of_not_has m k w h, List.map_append]
    rw [map_id_of_no_key m k w (keys_ne_of_not_has m k h)]
    simp

theorem setAdd_ne_nil (l : List String) (x : String) : setAdd l x ≠ [] := by
  unfold setAdd
  by_cases h : l.contains x
  · rw [if_pos h]
    intro he
    subst he
    simp [List.contains] at h
  · simp only [Bool.not_eq_true] at h
    rw [h]
    simp

/-- C6 helper: the file-info record the first announce acts on. -/
theorem announce_file_view (st : ControllerState) (f : String) (s now : Nat) :
    ∃ fi, mapGet (if !(mapHas st.fileLocations f) then
        mapSet st.fileLocations f (blankFileInfo s now) else st.fileLocations) f
      = some fi := by
  by_cases hnew : mapHas st.fileLocations f
  · obtain ⟨fi, hg⟩ := mapHas_true_exists _ _ hnew
    exact ⟨fi, by simp [hnew]; exact hg⟩
  · simp only [Bool.not_eq_true] at hnew
    refine ⟨blankFileInfo s now, ?_⟩
    simp [hnew, mapGet_mapSet_self]

/-- C6: `announce`/`deannounce` fail with the node-not-registered error exactly
when the node id is absent from the registry (the source returns the 400
before touching any state, so the error case leaves registry and index
unchanged by construction), and a deannounce by a registered node for an
untracked filename is a no-op returning the state unchanged. -/
theorem announce_deannounce_error_behavior (st : ControllerState) (n f : String)
    (s now : Nat) :
    ((∃ e, announce st n f s now = Except.error e) ↔
      mapHas st.registeredNodes n = false) ∧
    ((∃ e, deannounce st n f s = Except.error e) ↔
      mapHas st.registeredNodes n = false) ∧
    (mapHas st.registeredNodes n = false →
      announce st n f s now = Except.error ("Node not registered") ∧
      deannounce st n f s = Except.error ("Node not registered")) ∧
    (mapHas st.registeredNodes n = true → mapHas st.fileLocations f = false →
      deannounce st n f s = Except.ok st) := by
  by_cases hreg : mapHas st.registeredNodes n
  · obtain ⟨nd, hnd⟩ := mapHas_true_exists _ _ hreg
    obtain ⟨fi, hfi⟩ := announce_file_view st f s now
    have hann := announce_ok_eq st n f s now nd hnd fi hfi
    have hdeok : ∃ st2, deannounce st n f s = Except.ok st2 := by
      by_cases hfile : mapHas st.fileLocations f
      · obtain ⟨fi0, hfi0⟩ := mapHas_true_exists _ _ hfile
        by_cases hown : fi0.owners.contains n
        · exact ⟨_, deannounce_ok_eq st n f s nd hnd fi0 hfi0 hown⟩
        · rw [Bool.not_eq_true] at hown
          exact ⟨st, deannounce_not_owner_eq st n f s hreg fi0 hfi0 hown⟩
      · rw [Bool.not_eq_true] at hfile
        exact ⟨st, deannounce_untracked_eq st n f s hreg hfile⟩
    obtain ⟨st2, hde⟩ := hdeok
    refine ⟨⟨?_, ?_⟩, ⟨?_, ?_⟩, ?_, ?_⟩
    · rintro ⟨e, he⟩
      rw [hann] at he
      exact absurd he (by simp)
    · intro hc; rw [hreg] at hc; exact absurd hc (by simp)
    · rintro ⟨e, he⟩
      rw [hde] at he
      exact absurd he (by simp)
    · intro hc; rw [hreg] at hc; exact absurd hc (by simp)
    · intro hc; rw [hreg] at hc; exact absurd hc (by simp)
    · intro _ hfile
      exact deannounce_untracked_eq st n f s hreg hfile
  · rw [Bool.not_eq_true] at hreg
    refine ⟨⟨fun _ => hreg, fun _ => ⟨_, announce_error_eq st n f s now hreg⟩⟩,
      ⟨fun _ => hreg, fun _ => ⟨_, deannounce_error_eq st n f s hreg⟩⟩,
      fun _ => ⟨announce_error_eq st n f s now hreg, deannounce_error_eq st n f s hreg⟩,
      fun hc => ?_⟩
    rw [hreg] at hc
    exact absurd hc (by simp)

/-- C4: announce is idempotent: starting from any state in which node `n` is
registered and not yet an owner of `f`, the first `announce` adds `s` to
`n`'s used storage exactly once and the second identical `announce` returns
the very same state (so the owners set and all accounting are unchanged by
the retry). -/
theorem announce_idempotent (st : ControllerState) (n f : String)
    (s now now2 : Nat) (hreg : mapHas st.registeredNodes n = true)
    (hown : isOwner st f n = false) :
    ∃ st1, announce st n f s now = Except.ok st1 ∧
      announce st1 n f s now2 = Except.ok st1 ∧
      usedOf st1 n = usedOf st n + s := by
  obtain ⟨nd, hnd⟩ := mapHas_true_exists _ _ hreg
  have hfi : ∃ fi, mapGet (if !(mapHas st.fileLocations f) then
      mapSet st.fileLocations f (blankFileInfo s now) else st.fileLocations) f
      = some fi ∧ fi.owners.contains n = false := by
    by_cases hnew : mapHas st.fileLocations f
    · obtain ⟨fi, hg⟩ := mapHas_true_exists _ _ hnew
      have hio : isOwner st f n = fi.owners.contains n := by
        unfold isOwner; rw [hg]
      exact ⟨fi, by simp [hnew]; exact hg, by rw [← hio]; exact hown⟩
    · simp only [Bool.not_eq_true] at hnew
      exact ⟨blankFileInfo s now, by simp [hnew, mapGet_mapSet_self], rfl⟩
  obtain ⟨fi, hgfi, hfown⟩ := hfi
  have h1 := announce_ok_eq st n f s now nd hnd fi hgfi
  rw [hfown] at h1
  simp only [Bool.not_false, Bool.true_and] at h1
  set AA := (if !(s == 0) then mapSet st.registeredNodes n
      ({ nd with storage := { nd.storage with used := nd.storage.used + s } })
    else st.registeredNodes) with hAA
  set FF0 := (if !(mapHas st.fileLocations f) then
      mapSet st.fileLocations f (blankFileInfo s now)
    else st.fileLocations) with hFF0
  set FI1 := ({ fi with owners := setAdd fi.owners n } : FileInfo) with hFI1
  refine ⟨_, h1, ?_, ?_⟩
  · -- second call is the identity on the produced state
    have hnd1 : ∃ nd1, mapGet AA n = some nd1 := by
      rw [hAA]
      by_cases hs : (s == 0)
      · simp only [hs, Bool.not_true, Bool.false_eq_true, if_neg, ite_false]
        exact ⟨nd, hnd⟩
      · rw [Bool.not_eq_true] at hs
        simp only [hs, Bool.not_false, if_true, ite_true]
        exact ⟨_, mapGet_mapSet_self _ _ _⟩
    obtain ⟨nd1, hnd1⟩ := hnd1
    have hfi1 : mapGet (mapSet FF0 f FI1) f = some FI1 := mapGet_mapSet_self _ _ _
    have hhasF := mapHas_of_mapGet _ _ _ hfi1
    have hfi2 : mapGet (if !(mapHas
        ({ registeredNodes := AA, fileLocations := mapSet FF0 f FI1 } :
          ControllerState).fileLocations f) then
        mapSet ({ registeredNodes := AA, fileLocations := mapSet FF0 f FI1 } :
          ControllerState).fileLocations f (blankFileInfo s now2)
        else ({ registeredNodes := AA, fileLocations := mapSet FF0 f FI1 } :
          ControllerState).fileLocations) f = some FI1 := by
      simp only [hhasF, Bool.not_true, Bool.false_eq_true, if_neg, ite_false]
      exact hfi1
    have h2 := announce_ok_eq
      { registeredNodes := AA, fileLocations := mapSet FF0 f FI1 } n f s now2
      nd1 hnd1 FI1 hfi2
    simp only [hhasF, Bool.not_true, Bool.false_eq_true, if_neg, ite_false] at h2
    have hc : FI1.owners.contains n = true := by
      rw [hFI1]; exact contains_setAdd_self fi.owners n
    rw [setAdd_of_contains FI1.owners n hc] at h2
    simp only [hc, Bool.not_true, Bool.false_and, Bool.false_eq_true, if_neg,
      ite_false, mapSet_mapSet] at h2
    exact h2
  · unfold usedOf
    rw [hAA]
    by_cases hs : (s == 0)
    · have hs0 : s = 0 := by simpa using hs
      subst hs0
      simp [hnd]
    · rw [Bool.not_eq_true] at hs
      simp [hs, hnd, mapGet_mapSet_self]

/-- C5: for a registered node `n` and an untracked filename `f`,
`announce(f, n, s)` immediately followed by `deannounce(f, n, s)` removes
the file-location entry for `f` entirely and restores `n`'s used storage to
its pre-announce value. -/
theorem announce_deannounce_roundtrip (st : ControllerState) (n f : String)
    (s now : Nat) (hreg : mapHas st.registeredNodes n = true)
    (hnew : mapHas st.fileLocations f = false) :
    ∃ st1 st2, announce st n f s now = Except.ok st1 ∧
      deannounce st1 n f s = Except.ok st2 ∧
      mapGet st2.fileLocations f = none ∧
      usedOf st2 n = usedOf st n := by
  obtain ⟨nd, hnd⟩ := mapHas_true_exists _ _ hreg
  have hgfi : mapGet (if !(mapHas st.fileLocations f) then
      mapSet st.fileLocations f (blankFileInfo s now) else st.fileLocations) f
      = some (blankFileInfo s now) := by
    simp [hnew, mapGet_mapSet_self]
  have h1 := announce_ok_eq st n f s now nd hnd (blankFileInfo s now) hgfi
  have hbl : (blankFileInfo s now).owners.contains n = false := rfl
  rw [hbl] at h1
  simp only [Bool.not_false, Bool.true_and, hnew, Bool.not_true, Bool.not_false,
    if_true, ite_true] at h1
  set AA := (if !(s == 0) then mapSet st.registeredNodes n
      ({ nd with storage := { nd.storage with used := nd.storage.used + s } })
    else st.registeredNodes) with hAA
  set FI1 := ({ blankFileInfo s now with
    owners := setAdd (blankFileInfo s now).owners n } : FileInfo) with hFI1
  set FF1 := mapSet (mapSet st.fileLocations f (blankFileInfo s now)) f FI1 with hFF1
  have hnd1 : ∃ nd1, mapGet AA n = some nd1 ∧
      nd1.storage.used = nd.storage.used + s := by
    rw [hAA]
    by_cases hs : (s == 0)
    · have hs0 : s = 0 := by simpa using hs
      subst hs0
      simp only [hs, Bool.not_true, Bool.false_eq_true, if_neg, ite_false]
      exact ⟨nd, hnd, by simp⟩
    · rw [Bool.not_eq_true] at hs
      simp only [hs, Bool.not_false, if_true, ite_true]
      exact ⟨_, mapGet_mapSet_self _ _ _, rfl⟩
  obtain ⟨nd1, hnd1, hused1⟩ := hnd1
  have hfi1 : mapGet FF1 f = some FI1 := by
    rw [hFF1]; exact mapGet_mapSet_self _ _ _
  have hown1 : FI1.owners.contains n = true := by
    simp only [hFI1]
    exact contains_setAdd_self _ n
  have h2 := deannounce_ok_eq
    { registeredNodes := AA, fileLocations := FF1 } n f s nd1 hnd1 FI1 hfi1 hown1
  have hfilter : FI1.owners.filter (fun o => !(o == n)) = [] := by
    simp only [hFI1]
    simp [blankFileInfo, setAdd]
  rw [hfilter] at h2
  simp only [List.length_nil, beq_self_eq_true, if_true, ite_true] at h2
  refine ⟨_, _, h1, h2, ?_, ?_⟩
  · exact mapGet_mapDelete_self _ f
  · unfold usedOf
    by_cases hs : (s == 0)
    · have hs0 : s = 0 := by simpa using hs
      subst hs0
      simp only [hs, Bool.not_true, Bool.false_eq_true, if_neg, ite_false]
      rw [hnd1, hnd]
      simp [hused1]
    · rw [Bool.not_eq_true] at hs
      simp only [hs, Bool.not_false, if_true, ite_true]
      rw [mapGet_mapSet_self, hnd]
      simp [hused1]

/-- C10: frame property of announce: a successful announce never touches any
node's `online` or `lastSeen` fields (it only adjusts storage accounting),
so a registered node that is currently marked offline can announce a file
and become its owner without being brought back online; when the filename
was untracked, the created entry's owners set is exactly `[n]`, so an entry
whose only owner is offline can exist between sweeps. -/
theorem announce_frame_liveness (st : ControllerState) (n f : String)
    (s now : Nat) (hreg : mapHas st.registeredNodes n = true) :
    ∃ st1, announce st n f s now = Except.ok st1 ∧
      (∀ m nd1, mapGet st1.registeredNodes m = some nd1 →
        ∃ nd0, mapGet st.registeredNodes m = some nd0 ∧
          nd1.online = nd0.online ∧ nd1.lastSeen = nd0.lastSeen) ∧
      (mapHas st.fileLocations f = false →
        mapGet st1.fileLocations f = some
          { owners := [n], uploadTime := now, size := s, replicated := false }) := by
  obtain ⟨nd, hnd⟩ := mapHas_true_exists _ _ hreg
  obtain ⟨fi, hgfi⟩ := announce_file_view st f s now
  have h1 := announce_ok_eq st n f s now nd hnd fi hgfi
  refine ⟨_, h1, ?_, ?_⟩
  · intro m nd1 hm
    by_cases hcond : (!(fi.owners.contains n) && !(s == 0)) = true
    · rw [hcond] at hm
      simp only [if_true, ite_true] at hm
      by_cases hmn : m = n
      · subst hmn
        rw [mapGet_mapSet_self] at hm
        injection hm with he
        exact ⟨nd, hnd, by rw [← he], by rw [← he]⟩
      · rw [mapGet_mapSet_ne _ _ _ _ hmn] at hm
        exact ⟨nd1, hm, rfl, rfl⟩
    · rw [Bool.not_eq_true] at hcond
      rw [hcond] at hm
      simp only [Bool.false_eq_true, if_neg, ite_false] at hm
      exact ⟨nd1, hm, rfl, rfl⟩
  · intro hnew
    simp only [hnew, Bool.not_false, if_true, ite_true] at hgfi ⊢
    rw [mapGet_mapSet_self] at hgfi
    injection hgfi with he
    rw [mapGet_mapSet_self, ← he]
    simp [blankFileInfo, setAdd]

/-- C9: the announce, deannounce and sweep operations each preserve the
invariant that no file-location entry has an empty owners set (deannounce
deletes an entry rather than leaving it empty). -/
theorem noEmptyEntries_preserved (st st1 st2 : ControllerState) (n f : String)
    (s now now2 : Nat) (hinv : noEmptyEntries st) :
    (announce st n f s now = Except.ok st1 → noEmptyEntries st1) ∧
    (deannounce st n f s = Except.ok st2 → noEmptyEntries st2) ∧
    noEmptyEntries (sweep now2 st) := by
  have hfl0mem : ∀ q : String × FileInfo, ∀ sz nw : Nat,
      q ∈ (if !(mapHas st.fileLocations f) then
        mapSet st.fileLocations f (blankFileInfo sz nw) else st.fileLocations) →
      (q.1 == f) = false → q ∈ st.fileLocations := by
    intro q sz nw hq hqf
    by_cases hnew : mapHas st.fileLocations f
    · simpa [hnew] using hq
    · simp only [Bool.not_eq_true] at hnew
      rw [if_pos (by rw [hnew]; rfl)] at hq
      rcases mem_mapSet _ _ _ _ hq with ⟨hmem, _⟩ | heq
      · exact hmem
      · rw [heq] at hqf
        simp at hqf
  refine ⟨?_, ?_, ?_⟩
  · intro hok
    by_cases hreg : mapHas st.registeredNodes n
    · obtain ⟨nd, hnd⟩ := mapHas_true_exists _ _ hreg
      obtain ⟨fi, hgfi⟩ := announce_file_view st f s now
      rw [announce_ok_eq st n f s now nd hnd fi hgfi] at hok
      injection hok with he
      intro q hq
      rw [← he] at hq
      rcases mem_mapSet _ _ _ _ hq with ⟨hmem, hqf⟩ | heq
      · exact hinv q (hfl0mem q s now hmem hqf)
      · rw [heq]
        exact setAdd_ne_nil fi.owners n
    · rw [Bool.not_eq_true] at hreg
      rw [announce_error_eq st n f s now hreg] at hok
      exact absurd hok (by simp)
  · intro hok
    by_cases hreg : mapHas st.registeredNodes n
    · by_cases hfile : mapHas st.fileLocations f
      · obtain ⟨nd, hnd⟩ := mapHas_true_exists _ _ hreg
        obtain ⟨fi, hfi⟩ := mapHas_true_exists _ _ hfile
        by_cases hown : fi.owners.contains n
        · rw [deannounce_ok_eq st n f s nd hnd fi hfi hown] at hok
          injection hok with he
          intro q hq
          rw [← he] at hq
          by_cases hlen : ((fi.owners.filter (fun o => !(o == n))).length == 0)
          · rw [hlen] at hq
            simp only [if_true, ite_true] at hq
            exact hinv q (mem_mapDelete _ _ _ hq)
          · rw [Bool.not_eq_true] at hlen
            rw [hlen] at hq
            simp only [Bool.false_eq_true, if_neg, ite_false] at hq
            rcases mem_mapSet _ _ _ _ hq with ⟨hmem, _⟩ | heq
            · exact hinv q hmem
            · rw [heq]
              intro hnil
              simp only at hnil
              rw [hnil] at hlen
              simp at hlen
        · rw [Bool.not_eq_true] at hown
          rw [deannounce_not_owner_eq st n f s hreg fi hfi hown] at hok
          injection hok with he
          rw [← he]
          exact hinv
      · rw [Bool.not_eq_true] at hfile
        rw [deannounce_untracked_eq st n f s hreg hfile] at hok
        injection hok with he
        rw [← he]
        exact hinv
    · rw [Bool.not_eq_true] at hreg
      rw [deannounce_error_eq st n f s hreg] at hok
      exact absurd hok (by simp)
  · intro q hq
    unfold sweep at hq
    simp only at hq
    by_cases hch : sweepChanged now2 st
    · rw [if_pos hch] at hq
      exact hinv q (List.mem_filter.mp hq).1
    · rw [Bool.not_eq_true] at hch
      rw [hch] at hq
      simp only [Bool.false_eq_true, if_neg, ite_false] at hq
      exact hinv q hq

/-- C3: `locate` returns exactly the entries built from owners whose node
record is currently marked online: an address is returned for `e.id` iff
`e.id` is a member of the file's owners set and its node record is online.
In particular no address of an offline node is ever returned, and since
`locate` is a pure query over the state, the underlying owners set is left
untouched (offline owners stay members). -/
theorem locate_mem_iff (st : ControllerState) (f : String) (e : LocEntry) :
    e ∈ locate st f ↔
      ∃ fi nd, mapGet st.fileLocations f = some fi ∧ e.id ∈ fi.owners ∧
        mapGet st.registeredNodes e.id = some nd ∧ nd.online = true ∧
        e.address = nd.address ∧ e.port = nd.port := by
  unfold locate
  cases hg : mapGet st.fileLocations f with
  | none => simp
  | some fi =>
    rw [List.mem_filterMap]
    constructor
    · rintro ⟨oid, hmem, hfn⟩
      cases hnd : mapGet st.registeredNodes oid with
      | none => rw [hnd] at hfn; exact absurd hfn (by simp)
      | some nd =>
        rw [hnd] at hfn
        replace hfn : (if nd.online then
            some ({ id := oid, address := nd.address, port := nd.port } : LocEntry)
          else none) = some e := hfn
        by_cases hon : nd.online
        · rw [if_pos hon] at hfn
          injection hfn with he
          rw [← he]
          exact ⟨fi, nd, rfl, hmem, hnd, hon, rfl, rfl⟩
        · rw [Bool.not_eq_true] at hon
          rw [hon] at hfn
          simp at hfn
    · rintro ⟨fi', nd, hfi', hmem, hnd, hon, haddr, hport⟩
      injection hfi' with hfe
      subst hfe
      refine ⟨e.id, hmem, ?_⟩
      show (match mapGet st.registeredNodes e.id with
        | some nd =>
            if nd.online then
              some ({ id := e.id, address := nd.address, port := nd.port } : LocEntry)
            else none
        | none => none) = some e
      rw [hnd]
      show (if nd.online then
          some ({ id := e.id, address := nd.address, port := nd.port } : LocEntry)
        else none) = some e
      rw [if_pos hon, ← haddr, ← hport]

/-- C7: one sweep maps every node record through `markOffline`; for any node
whose `owner` field is in the normalized form produced by registration
(`none`, or a nonempty user name), the swept record is offline exactly when
it was already offline or it is a non-personal node whose last heartbeat is
more than 30 s old; a node with a non-null owner is never marked offline,
no matter how stale its `lastSeen` is. -/
theorem sweep_marks_offline_iff (now : Nat) (st : ControllerState) (nid : String)
    (nd : NodeRecord) (hget : mapGet st.registeredNodes nid = some nd)
    (hnorm : nd.owner = none ∨ ∃ s, nd.owner = some s ∧ s ≠ "") :
    mapGet (sweep now st).registeredNodes nid = some (markOffline now nd) ∧
    ((markOffline now nd).online = false ↔
      (nd.online = false ∨
        (nd.owner = none ∧ now - nd.lastSeen > heartbeatTimeoutMs))) ∧
    (nd.owner ≠ none → (markOffline now nd).online = nd.online) := by
  refine ⟨?_, ?_, ?_⟩
  · show mapGet (st.registeredNodes.map
        (fun p => (p.1, markOffline now p.2))) nid = some (markOffline now nd)
    rw [mapGet_map_value, hget]
    rfl
  · rcases hnorm with h0 | ⟨s, hs, hsne⟩
    · by_cases hon : nd.online <;>
        by_cases hst : now - nd.lastSeen > heartbeatTimeoutMs <;>
          simp [markOffline, nodeTimedOut, jsOwnerTruthy, h0, hon, hst]
    · have ht : jsOwnerTruthy (some s) = true := by
        simp [jsOwnerTruthy, hsne]
      simp [markOffline, nodeTimedOut, ht, hs]
  · intro hsome
    rcases hnorm with h0 | ⟨s, hs, hsne⟩
    · exact absurd h0 hsome
    · simp [markOffline, nodeTimedOut, jsOwnerTruthy, hs, hsne]

/-- C2 (amended): after a sweep in which at least one node was newly marked
offline, every entry still present in the file-location index has at least
one owner whose node record is online (entries with no online owner are
deleted by the rescan). -/
theorem sweep_changed_evicts_ownerless (now : Nat) (st : ControllerState)
    (hch : sweepChanged now st = true) :
    ∀ f fi, mapGet (sweep now st).fileLocations f = some fi →
      hasOnlineOwner (sweep now st).registeredNodes fi = true := by
  intro f fi hget
  have hfl : (sweep now st).fileLocations
      = st.fileLocations.filter (fun q => hasOnlineOwner
          (st.registeredNodes.map (fun p => (p.1, markOffline now p.2))) q.2) := by
    show (if sweepChanged now st then _ else _) = _
    rw [if_pos hch]
  rw [hfl] at hget
  exact mapGet_filter_snd _ _ _ _ hget

/-! ## Chunk engine lemmas -/

theorem ceil_div_zero (C : Nat) (hC : 0 < C) : (0 + C - 1) / C = 0 :=
  Nat.div_eq_of_lt (by omega)

theorem ceil_div_succ (C len : Nat) (hC : 0 < C) (hlen : 0 < len) :
    (len + C - 1) / C = ((len - C) + C - 1) / C + 1 := by
  rcases Nat.le_total C len with hcl | hcl
  · have he : len + C - 1 = ((len - C) + C - 1) + C := by omega
    rw [he, Nat.add_div_right _ hC]
  · have h0 : len - C = 0 := by omega
    rw [h0]
    rw [ceil_div_zero C hC]
    exact Nat.div_eq_of_lt_le (by omega) (by omega)

theorem chunkData_as_take (l : List Nat) (C i : Nat) :
    chunkData l C i = (l.drop (i * C)).take C := by
  simp only [chunkData]
  rcases Nat.le_total (i * C + C) l.length with hle | hle
  · rw [Nat.min_eq_left hle]
    congr 1
    omega
  · rw [Nat.min_eq_right hle]
    rcases Nat.le_total (i * C) l.length with h2 | h2
    · rw [List.take_of_length_le (by rw [List.length_drop]),
        List.take_of_length_le (by rw [List.length_drop]; omega)]
    · rw [List.drop_eq_nil_of_le h2]
      simp

theorem chunkData_length (l : List Nat) (C i : Nat) :
    (chunkData l C i).length = min C (l.length - i * C) := by
  rw [chunkData_as_take, List.length_take, List.length_drop]

theorem join_chunks (C : Nat) (hC : 0 < C) (N : Nat) :
    ∀ l : List Nat, l.length ≤ N →
      ((List.range ((l.length + C - 1) / C)).map
        (fun i => (l.drop (i * C)).take C)).flatten = l := by
  induction N with
  | zero =>
    intro l hl
    have h0 : l = [] := List.eq_nil_of_length_eq_zero (Nat.le_zero.mp hl)
    subst h0
    simp [ceil_div_zero C hC]
  | succ N ih =>
    intro l hl
    rcases Nat.eq_zero_or_pos l.length with h0 | hpos
    · have hnil : l = [] := List.eq_nil_of_length_eq_zero h0
      subst hnil
      simp [ceil_div_zero C hC]
    · rw [ceil_div_succ C l.length hC hpos, List.range_succ_eq_map,
        List.map_cons, List.flatten_cons, List.map_map]
      have h1 : (l.drop (0 * C)).take C = l.take C := by
        norm_num
      rw [h1]
      have h2 : (List.range (((l.length - C) + C - 1) / C)).map
            ((fun i => (l.drop (i * C)).take C) ∘ Nat.succ)
          = (List.range ((((l.drop C).length) + C - 1) / C)).map
            (fun i => ((l.drop C).drop (i * C)).take C) := by
        rw [List.length_drop]
        apply List.map_congr_left
        intro i _
        simp only [Function.comp]
        rw [List.drop_drop]
        congr 2
        rw [Nat.succ_mul]
        omega
      rw [h2, ih (l.drop C) (by rw [List.length_drop]; omega)]
      exact List.take_append_drop C l

theorem insertByIndex_le (c : ChunkMeta) (l : List ChunkMeta)
    (hle : ∀ d ∈ l, c.index ≤ d.index) : insertByIndex c l = c :: l := by
  cases l with
  | nil => rfl
  | cons d ds =>
    unfold insertByIndex
    rw [if_pos (hle d (List.mem_cons_self d ds))]

theorem sortByIndex_sorted (l : List ChunkMeta)
    (hs : l.Pairwise (fun a b => a.index ≤ b.index)) : sortByIndex l = l := by
  induction l with
  | nil => rfl
  | cons c cs ih =>
    rw [List.pairwise_cons] at hs
    unfold sortByIndex
    rw [ih hs.2, insertByIndex_le c cs hs.1]

theorem splitFile_chunks_pairwise (h : List Nat → String) (fname : String)
    (C : Nat) (file : List Nat) :
    ((splitFile h fname C file).2.chunks).Pairwise
      (fun a b => a.index ≤ b.index) := by
  simp only [splitFile, List.map_map]
  rw [List.pairwise_map]
  refine (List.pairwise_lt_range _).imp ?_
  intro a b hab
  exact Nat.le_of_lt hab

theorem readChunks_ok (h : List Nat → String) (store : List (String × List Nat)) :
    ∀ cps : List (ChunkMeta × List Nat),
      (∀ cp ∈ cps, mapGet store cp.1.id = some cp.2 ∧ h cp.2 = cp.1.hash) →
      readChunks h store (cps.map Prod.fst)
        = Except.ok ((cps.map Prod.snd).flatten) := by
  intro cps
  induction cps with
  | nil => intro _; rfl
  | cons cp t ih =>
    intro hall
    obtain ⟨hget, hhash⟩ := hall cp (List.mem_cons_self cp t)
    simp only [List.map_cons, List.flatten_cons]
    unfold readChunks
    simp only [hget]
    rw [if_neg (fun hne => hne hhash)]
    simp only [ih (fun q hq => hall q (List.mem_cons_of_mem cp hq))]

theorem readChunks_err (h : List Nat → String) (store : List (String × List Nat))
    (cm : ChunkMeta) (d2 : List Nat)
    (hget : mapGet store cm.id = some d2) (hne : h d2 ≠ cm.hash) :
    ∀ (pres : List (ChunkMeta × List Nat)) (rest : List ChunkMeta),
      (∀ cp ∈ pres, mapGet store cp.1.id = some cp.2 ∧ h cp.2 = cp.1.hash) →
      readChunks h store (pres.map Prod.fst ++ cm :: rest)
        = Except.error ("Chunk " ++ toString cm.index ++ " integrity check failed") := by
  intro pres
  induction pres with
  | nil =>
    intro rest _
    simp only [List.map_nil, List.nil_append]
    unfold readChunks
    simp only [hget]
    rw [if_pos hne]
  | cons cp t ih =>
    intro rest hall
    obtain ⟨hg, hh⟩ := hall cp (List.mem_cons_self cp t)
    simp only [List.map_cons, List.cons_append]
    unfold readChunks
    simp only [hg]
    rw [if_neg (fun hne2 => hne2 hh)]
    simp only [ih rest (fun q hq => hall q (List.mem_cons_of_mem cp hq))]

/-- The chunk/bytes pairs produced by `splitFile`, exposed for reasoning. -/
def splitPairs (h : List Nat → String) (fname : String) (C : Nat)
    (file : List Nat) : List (ChunkMeta × List Nat) :=
  (List.range ((file.length + C - 1) / C)).map (fun i =>
    ({ index := i
       id := fname ++ "_chunk_" ++ toString i ++ "_" ++ h (chunkData file C i)
       size := (chunkData file C i).length
       hash := h (chunkData file C i) }, chunkData file C i))

theorem splitFile_fst (h : List Nat → String) (fname : String) (C : Nat)
    (file : List Nat) :
    (splitFile h fname C file).1
      = (splitPairs h fname C file).map (fun c => (c.1.id, c.2)) := rfl

theorem splitFile_chunks (h : List Nat → String) (fname : String) (C : Nat)
    (file : List Nat) :
    (splitFile h fname C file).2.chunks
      = (splitPairs h fname C file).map Prod.fst := rfl

theorem splitPairs_facts (h : List Nat → String) (fname : String) (C : Nat)
    (file : List Nat) :
    ∀ cp ∈ splitPairs h fname C file,
      cp.2 = chunkData file C cp.1.index ∧ cp.1.hash = h cp.2 := by
  intro cp hcp
  obtain ⟨i, _, he⟩ := List.mem_map.mp hcp
  rw [← he]
  exact ⟨rfl, rfl⟩

theorem splitPairs_store_get (h : List Nat → String) (fname : String) (C : Nat)
    (file : List Nat)
    (hnodup : ((splitFile h fname C file).1.map Prod.fst).Nodup) :
    ∀ cp ∈ splitPairs h fname C file,
      mapGet (splitFile h fname C file).1 cp.1.id = some cp.2 := by
  intro cp hcp
  have hmem : (cp.1.id, cp.2) ∈ (splitFile h fname C file).1 := by
    rw [splitFile_fst]
    exact List.mem_map.mpr ⟨cp, hcp, rfl⟩
  exact mapGet_assoc_self _ hnodup (cp.1.id, cp.2) hmem

theorem splitFile_sort_eq (h : List Nat → String) (fname : String) (C : Nat)
    (file : List Nat) :
    sortByIndex (splitFile h fname C file).2.chunks
      = (splitFile h fname C file).2.chunks :=
  sortByIndex_sorted _ (splitFile_chunks_pairwise h fname C file)

theorem splitPairs_flatten (h : List Nat → String) (fname : String) (C : Nat)
    (file : List Nat) (hC : 0 < C) :
    ((splitPairs h fname C file).map Prod.snd).flatten = file := by
  have he : (splitPairs h fname C file).map Prod.snd
      = (List.range ((file.length + C - 1) / C)).map
          (fun i => (file.drop (i * C)).take C) := by
    unfold splitPairs
    rw [List.map_map]
    apply List.map_congr_left
    intro i _
    exact chunkData_as_take file C i
  rw [he]
  exact join_chunks C hC file.length file (le_refl _)

/-- C8: `splitFile` produces exactly `ceil(size / chunkSize)` chunks covering
the file in byte order; every chunk has length `chunkSize` except possibly
the last; each chunk's hash is the content hash of its bytes and its id is
derived deterministically from the filename, the index and that hash (so
splitting identical content yields identical chunk ids). -/
theorem splitFile_chunk_structure (h : List Nat → String) (fname : String)
    (C : Nat) (file : List Nat) (hC : 0 < C) :
    (splitFile h fname C file).2.chunkCount = (file.length + C - 1) / C ∧
    (splitFile h fname C file).2.chunks.length
      = (splitFile h fname C file).2.chunkCount ∧
    ((splitFile h fname C file).1.map Prod.snd).flatten = file ∧
    (∀ cm ∈ (splitFile h fname C file).2.chunks,
      cm.size = min C (file.length - cm.index * C) ∧
      (cm.index + 1 < (splitFile h fname C file).2.chunkCount → cm.size = C) ∧
      cm.hash = h (chunkData file C cm.index) ∧
      cm.id = fname ++ "_chunk_" ++ toString cm.index ++ "_" ++ cm.hash) := by
  refine ⟨rfl, ?_, ?_, ?_⟩
  · simp [splitFile]
  · have he : (splitFile h fname C file).1.map Prod.snd
        = (splitPairs h fname C file).map Prod.snd := by
      rw [splitFile_fst, List.map_map]
      rfl
    rw [he]
    exact splitPairs_flatten h fname C file hC
  · intro cm hcm
    rw [splitFile_chunks] at hcm
    obtain ⟨cp, hcp, hcpe⟩ := List.mem_map.mp hcm
    obtain ⟨i, hi, hie⟩ := List.mem_map.mp hcp
    rw [List.mem_range] at hi
    rw [← hcpe, ← hie]
    refine ⟨chunkData_length file C i, ?_, rfl, rfl⟩
    intro hlt
    have hcount : i + 1 < (file.length + C - 1) / C := hlt
    show (chunkData file C i).length = C
    rw [chunkData_length]
    have h1 : (i + 2) * C ≤ ((file.length + C - 1) / C) * C :=
      Nat.mul_le_mul_right C (by omega)
    have h2 : ((file.length + C - 1) / C) * C ≤ file.length + C - 1 :=
      Nat.div_mul_le_self _ _
    have h3 : i * C + 2 * C ≤ file.length + C - 1 := by
      calc i * C + 2 * C = (i + 2) * C := by ring
      _ ≤ ((file.length + C - 1) / C) * C := h1
      _ ≤ file.length + C - 1 := h2
    rw [Nat.min_eq_left (by omega)]


theorem reassembleFile_ok_eq (h : List Nat → String)
    (store : List (String × List Nat)) (m : Manifest) (assembled : List Nat)
    (hr : readChunks h store (sortByIndex m.chunks) = Except.ok assembled) :
    reassembleFile h store m = Except.ok (assembled.take m.originalSize ++
      List.replicate (m.originalSize - assembled.length) 0) := by
  unfold reassembleFile
  rw [hr]

theorem reassembleFile_err_eq (h : List Nat → String)
    (store : List (String × List Nat)) (m : Manifest) (e : String)
    (hr : readChunks h store (sortByIndex m.chunks) = Except.error e) :
    reassembleFile h store m = Except.error e := by
  unfold reassembleFile
  rw [hr]

/-- C1: chunk-engine round trip with the source's fixed 1 MiB chunk size:
reassembling straight after splitting returns exactly the original bytes;
and if the persisted bytes of any chunk are overwritten with bytes whose
hash differs from the recorded one (any real-world mutation, since md5 is
collision-resistant), `reassembleFile` aborts with that chunk's integrity
error — an `Except.error`, so no output bytes are ever produced.  The
`hnodup` hypothesis states that the generated chunk ids are pairwise
distinct, which always holds for the fixed-width md5 hex digest. -/
theorem splitFile_reassembleFile_roundtrip (h : List Nat → String)
    (fname : String) (file : List Nat)
    (hnodup : ((splitFile h fname defaultChunkSize file).1.map Prod.fst).Nodup) :
    reassembleFile h (splitFile h fname defaultChunkSize file).1
      (splitFile h fname defaultChunkSize file).2 = Except.ok file ∧
    (∀ cm ∈ (splitFile h fname defaultChunkSize file).2.chunks,
      ∀ d2 : List Nat, h d2 ≠ cm.hash →
      reassembleFile h
        (mapSet (splitFile h fname defaultChunkSize file).1 cm.id d2)
        (splitFile h fname defaultChunkSize file).2
        = Except.error ("Chunk " ++ toString cm.index ++ " integrity check failed")) := by
  constructor
  · have hread : readChunks h (splitFile h fname defaultChunkSize file).1
        (sortByIndex (splitFile h fname defaultChunkSize file).2.chunks)
        = Except.ok file := by
      rw [splitFile_sort_eq, splitFile_chunks]
      rw [readChunks_ok h _ _ (fun cp hcp =>
        ⟨splitPairs_store_get h fname defaultChunkSize file hnodup cp hcp,
         ((splitPairs_facts h fname defaultChunkSize file) cp hcp).2.symm⟩)]
      rw [splitPairs_flatten h fname defaultChunkSize file (by decide)]
    rw [reassembleFile_ok_eq h _ _ file hread]
    have horig : (splitFile h fname defaultChunkSize file).2.originalSize
        = file.length := rfl
    rw [horig, List.take_length, Nat.sub_self, List.replicate_zero,
      List.append_nil]
  · intro cm hcm d2 hne
    rw [splitFile_chunks] at hcm
    obtain ⟨cp, hcp, hcpe⟩ := List.mem_map.mp hcm
    obtain ⟨pre, post, hdecomp⟩ := List.append_of_mem hcp
    have hget2 : mapGet (mapSet (splitFile h fname defaultChunkSize file).1
        cm.id d2) cm.id = some d2 := mapGet_mapSet_self _ _ _
    have hkeys : (splitFile h fname defaultChunkSize file).1.map Prod.fst
        = (splitPairs h fname defaultChunkSize file).map (fun c => c.1.id) := by
      rw [splitFile_fst, List.map_map]
      rfl
    have hnd2 : ((splitPairs h fname defaultChunkSize file).map
        (fun c => c.1.id)).Nodup := by
      rw [← hkeys]; exact hnodup
    rw [hdecomp, List.map_append, List.map_cons] at hnd2
    obtain ⟨hnpre, hnrest, hdisj⟩ := List.nodup_append.mp hnd2
    have hprefacts : ∀ q ∈ pre,
        mapGet (mapSet (splitFile h fname defaultChunkSize file).1 cm.id d2)
          q.1.id = some q.2 ∧ h q.2 = q.1.hash := by
      intro q hq
      have hqid : q.1.id ≠ cm.id := by
        intro heq
        have h1 : q.1.id ∈ pre.map (fun c => c.1.id) :=
          List.mem_map.mpr ⟨q, hq, rfl⟩
        have h2 : q.1.id ∈ cp.1.id :: post.map (fun c => c.1.id) := by
          rw [heq, ← hcpe]
          exact List.mem_cons_self _ _
        exact hdisj h1 h2
      rw [mapGet_mapSet_ne _ _ _ _ hqid]
      have hqmem : q ∈ splitPairs h fname defaultChunkSize file := by
        rw [hdecomp]
        exact List.mem_append.mpr (Or.inl hq)
      exact ⟨splitPairs_store_get h fname defaultChunkSize file hnodup q hqmem,
        ((splitPairs_facts h fname defaultChunkSize file) q hqmem).2.symm⟩
    have herr : readChunks h
        (mapSet (splitFile h fname defaultChunkSize file).1 cm.id d2)
        (sortByIndex (splitFile h fname defaultChunkSize file).2.chunks)
        = Except.error ("Chunk " ++ toString cm.index ++ " integrity check failed") := by
      rw [splitFile_sort_eq, splitFile_chunks, hdecomp, List.map_append,
        List.map_cons, hcpe]
      exact readChunks_err h _ cm d2 hget2 hne pre (post.map Prod.fst) hprefacts
    exact reassembleFile_err_eq h _ _ _ herr

/-! ## Concrete states for counterexamples and witnesses -/

def wState : ControllerState :=
  register initialState ("A") ("10.0.0.1") (some 5001) none none 0

/-- `wState` after a sweep at t = 40 s: node A is offline (no heartbeat). -/
def wOff : ControllerState := sweep 40000 wState

def c2AfterAnnounce : ControllerState :=
  match announce wOff ("A") ("report") 100 45000 with
  | Except.ok s => s
  | Except.error _ => initialState

/-- C2 (counterexample): a reachable state refuting the unconditional claim.
Register node A at t=0; the sweep at t=40 s marks A offline; the offline A
then successfully announces "report" (creating an entry whose only owner is
offline); the next sweep at t=50 s flips no node, so `sweepChanged` is
false, the file rescan is skipped, and the entry survives the sweep with no
online owner. -/
theorem sweep_stale_entry_counterexample :
    announce wOff ("A") ("report") 100 45000 = Except.ok c2AfterAnnounce ∧
    mapGet (sweep 50000 c2AfterAnnounce).fileLocations ("report")
      = some { owners := [("A")], uploadTime := 45000, size := 100,
               replicated := false } ∧
    hasOnlineOwner (sweep 50000 c2AfterAnnounce).registeredNodes
      { owners := [("A")], uploadTime := 45000, size := 100,
        replicated := false } = false :=
  ⟨rfl, rfl, rfl⟩

def w2Base : ControllerState :=
  register (register initialState ("A") ("10.0.0.1") (some 5001) none none 0)
    ("B") ("10.0.0.2") (some 5002) none none 39000

def w2 : ControllerState :=
  match announce w2Base ("B") ("g.txt") 10 39500 with
  | Except.ok s => s
  | Except.error _ => w2Base

theorem sweep_changed_evicts_ownerless_witness :
    sweepChanged 40000 w2 = true ∧
    hasOnlineOwner (sweep 40000 w2).registeredNodes
      { owners := [("B")], uploadTime := 39500, size := 10,
        replicated := false } = true :=
  ⟨by decide, sweep_changed_evicts_ownerless 40000 w2 (by decide) ("g.txt")
    { owners := [("B")], uploadTime := 39500, size := 10, replicated := false }
    (by decide)⟩

theorem locate_mem_iff_witness :
    ({ id := ("B"), address := ("10.0.0.2"), port := 5002 } : LocEntry)
      ∈ locate w2 ("g.txt") :=
  (locate_mem_iff w2 ("g.txt")
    { id := ("B"), address := ("10.0.0.2"), port := 5002 }).mpr
    ⟨{ owners := [("B")], uploadTime := 39500, size := 10, replicated := false },
     { address := ("10.0.0.2"), port := 5002, online := true, lastSeen := 39000,
       owner := none, storage := { total := 0, used := 10 } },
     by decide, by decide, by decide, by decide, by decide, by decide⟩

theorem announce_idempotent_witness :
    ∃ st1, announce wState ("A") ("f.txt") 5 100 = Except.ok st1 ∧
      announce st1 ("A") ("f.txt") 5 200 = Except.ok st1 ∧
      usedOf st1 ("A") = usedOf wState ("A") + 5 :=
  announce_idempotent wState ("A") ("f.txt") 5 100 200 (by rfl) (by rfl)

theorem announce_deannounce_roundtrip_witness :
    ∃ st1 st2, announce wState ("A") ("f.txt") 5 100 = Except.ok st1 ∧
      deannounce st1 ("A") ("f.txt") 5 = Except.ok st2 ∧
      mapGet st2.fileLocations ("f.txt") = none ∧
      usedOf st2 ("A") = usedOf wState ("A") :=
  announce_deannounce_roundtrip wState ("A") ("f.txt") 5 100 (by rfl) (by rfl)

theorem announce_deannounce_error_behavior_witness :
    announce initialState ("A") ("f.txt") 5 0
      = Except.error ("Node not registered") ∧
    deannounce wState ("A") ("nofile") 5 = Except.ok wState :=
  ⟨((announce_deannounce_error_behavior initialState ("A") ("f.txt") 5 0).2.2.1
      (by rfl)).1,
   (announce_deannounce_error_behavior wState ("A") ("nofile") 5 0).2.2.2
      (by rfl) (by rfl)⟩

def wNodeA : NodeRecord :=
  { address := ("10.0.0.1"), port := 5001, online := true, lastSeen := 0,
    owner := none, storage := { total := 0, used := 0 } }

theorem sweep_marks_offline_iff_witness :
    mapGet (sweep 40000 wState).registeredNodes ("A")
      = some (markOffline 40000 wNodeA) ∧
    ((markOffline 40000 wNodeA).online = false ↔
      (wNodeA.online = false ∨
        (wNodeA.owner = none ∧ 40000 - wNodeA.lastSeen > heartbeatTimeoutMs))) ∧
    (wNodeA.owner ≠ none → (markOffline 40000 wNodeA).online = wNodeA.online) :=
  sweep_marks_offline_iff 40000 wState ("A") wNodeA (by rfl) (Or.inl rfl)

def wSt1 : ControllerState :=
  match announce wState ("A") ("f.txt") 5 100 with
  | Except.ok s => s
  | Except.error _ => wState

def wSt2 : ControllerState :=
  match deannounce wState ("A") ("f.txt") 5 with
  | Except.ok s => s
  | Except.error _ => wState

theorem noEmptyEntries_preserved_witness :
    (announce wState ("A") ("f.txt") 5 100 = Except.ok wSt1
      → noEmptyEntries wSt1) ∧
    (deannounce wState ("A") ("f.txt") 5 = Except.ok wSt2
      → noEmptyEntries wSt2) ∧
    noEmptyEntries (sweep 40000 wState) :=
  noEmptyEntries_preserved wState wSt1 wSt2 ("A") ("f.txt") 5 100 40000
    (by decide)

theorem announce_frame_liveness_witness :
    ∃ st1, announce wOff ("A") ("doc.txt") 7 45000 = Except.ok st1 ∧
      (∀ m nd1, mapGet st1.registeredNodes m = some nd1 →
        ∃ nd0, mapGet wOff.registeredNodes m = some nd0 ∧
          nd1.online = nd0.online ∧ nd1.lastSeen = nd0.lastSeen) ∧
      (mapHas wOff.fileLocations ("doc.txt") = false →
        mapGet st1.fileLocations ("doc.txt") = some
          { owners := [("A")], uploadTime := 45000, size := 7,
            replicated := false }) :=
  announce_frame_liveness wOff ("A") ("doc.txt") 7 45000 (by rfl)

def wHash : List Nat → String := fun l => toString l.length

theorem splitFile_reassembleFile_roundtrip_witness :
    reassembleFile wHash (splitFile wHash ("a.txt") defaultChunkSize [1, 2, 3]).1
      (splitFile wHash ("a.txt") defaultChunkSize [1, 2, 3]).2
      = Except.ok [1, 2, 3] ∧
    reassembleFile wHash
      (mapSet (splitFile wHash ("a.txt") defaultChunkSize [1, 2, 3]).1
        ("a.txt_chunk_0_3") [9, 9])
      (splitFile wHash ("a.txt") defaultChunkSize [1, 2, 3]).2
      = Except.error ("Chunk " ++ toString (0 : Nat)
          ++ " integrity check failed") := by
  have hthm := splitFile_reassembleFile_roundtrip wHash ("a.txt") [1, 2, 3]
    (by decide)
  refine ⟨hthm.1, ?_⟩
  exact hthm.2
    { index := 0, id := ("a.txt_chunk_0_3"), size := 3, hash := ("3") }
    (by decide) [9, 9] (by decide)

theorem splitFile_chunk_structure_witness :
    0 < 1048576 ∧
    (splitFile wHash ("report.pdf") 1048576
      (List.replicate 3145728 0)).2.chunkCount = 3 := by
  have hthm := splitFile_chunk_structure wHash ("report.pdf") 1048576
    (List.replicate 3145728 0) (by decide)
  refine ⟨by decide, ?_⟩
  rw [hthm.1, List.length_replicate]
